import Mathlib

/-!
Shallow embedding of the Contract Registry & Compilation Orchestration
subsystem of the `whylson-connector` VS Code extension (current iteration of
`src/whylson-context.ts`, `src/utils.ts`, `src/view-manager.ts`,
`src/types.ts`), together with proofs about the registry, the path mapper,
the compiler adapter, the debounced edit pipeline and the view manager.

Modelling conventions:
* TypeScript strings are Lean `String`s; JavaScript `String.prototype.split`
  with a one-character separator is modelled by `jsSplit` below (structural
  recursion over the character list, matching JS semantics: `"".split(".") =
  [""]`, separators at the ends produce empty segments).
* The registry lives in two places: the on-disk `contracts.json` file and the
  in-memory `_entries` mirror.  `RegistryState.file` is `some l` when the file
  exists and parses as the entry list `l`, and `none` when the file is missing
  or unparsable (`io.safeRead` returns `""` on a read failure and
  `io.safeParse` returns `undefined` on any parse failure, so the two cases
  are indistinguishable to `loadContractEntries`).  `RegistryState.mem` is the
  `_entries` mirror.
* The external compiler process (`execSync` of the rendered `ligo compile
  contract ...` command inside `utils.compileLigo`) is abstracted as a
  function `Compiler` from the data that determines the command — the source
  path and the `CompileContractOptions` — to an outcome: normal exit with
  stdout, a thrown `Error` carrying a message, or a thrown non-`Error` value.
* Asynchronous interleavings (the `contracts.json` file watcher firing
  between awaited operations) are surfaced as explicit `Bool` parameters.
* Mutation of JavaScript objects is modelled by explicit state passing:
  every operation returns the registry state it leaves behind.
-/

namespace Whylson

/-- Model of `types.ts` `CompileContractOptions`: entrypoint, optional output path
(`onPath : Maybe<string>`) and ordered compiler flags. -/
structure CompileContractOptions where
  entrypoint : String
  onPath : Option String
  flags : List String
deriving DecidableEq, Repr

/-- Model of `types.ts` `ContractEntryScheme`: one record of `contracts.json`.  It
extends `CompileContractOptions` but overrides `onPath` to be always
present. -/
structure ContractEntryScheme where
  title : String
  source : String
  onPath : String
  entrypoint : String
  flags : List String
deriving DecidableEq, Repr

/-- Model of `types.ts` `CompilationResult`: `{ok, disp, content}`. -/
structure CompilationResult where
  ok : Bool
  disp : Bool
  content : String
deriving DecidableEq, Repr

/-- JavaScript `String.prototype.split` with a one-character separator, on
character lists.  `jsSplitCh sep cs` never returns `[]`; an empty input gives
`[[]]`, and each occurrence of `sep` ends a segment. -/
def jsSplitCh (sep : Char) : List Char → List (List Char)
  | [] => [[]]
  | c :: cs =>
    if c = sep then [] :: jsSplitCh sep cs
    else
      match jsSplitCh sep cs with
      | [] => [[c]]
      | l :: ls => (c :: l) :: ls

/-- JavaScript `s.split(sep)` for a one-character separator, on strings. -/
def jsSplit (sep : Char) (s : String) : List String :=
  (jsSplitCh sep s.data).map (fun l => String.mk l)

/-- Model of `path.posix.basename` for ordinary file paths (no trailing slash): the
component after the last `"/"`. -/
def posixBasename (p : String) : String :=
  (jsSplit '/' p).getLastD ""

/-- The `basename(path).split(".")[0]` computation used by both
`WhylsonContext.ligoToMichelson` and `utils.createEntry`: the part of the
basename before its first dot.  JS `split` never returns an empty array, so
indexing `[0]` is total. -/
def fileStem (p : String) : String :=
  (jsSplit '.' (posixBasename p)).headD ""

/-- Model of `WhylsonContext.ligoToMichelson` (string overload): strip the basename at
its first dot, append `".tz"`, and relocate into the `bin-contracts`
directory.  `posix.join(binDir, base)` is modelled as `binDir ++ "/" ++ base`
for a directory path without a trailing slash. -/
def ligoToMichelson (binDir : String) (p : String) : String :=
  binDir ++ "/" ++ (fileStem p ++ ".tz")

/-- Model of `utils.commentMichelson`: split on `"\n"` and re-assemble with every line
written as a Michelson comment `"# <line>\n"`. -/
def commentMichelson (content : String) : String :=
  (jsSplit '\n' content).foldl (fun result line => result ++ "# " ++ line ++ "\n") ""

/-- Outcome of the external `ligo` process launched by `execSync` inside
`utils.compileLigo`: normal exit with captured stdout, or a thrown `Error`
with its `message`, or a thrown non-`Error` value. -/
inductive CompilerOutcome where
  | success (stdout : String)
  | failure (message : String)
  | failureNonError
deriving DecidableEq, Repr

/-- The data determining the rendered `ligo compile contract` command line:
source path plus options. -/
structure CompileInvocation where
  source : String
  options : CompileContractOptions
deriving DecidableEq, Repr

/-- The external compiler, abstracted as a function from invocation to
outcome. -/
def Compiler : Type := CompileInvocation → CompilerOutcome

/-- Model of `utils.compileLigo` (current iteration): run the compiler; on success
return `{ok: true, disp: true, content: stdout}`; when an `Error` is caught
return its message comment-wrapped with `disp: true`; on a non-`Error` throw
return `{ok: false, disp: false, content: ""}`. -/
def compileLigo (source : String) (cco : CompileContractOptions) (comp : Compiler) :
    CompilationResult :=
  match comp ⟨source, cco⟩ with
  | .success out => ⟨true, true, out⟩
  | .failure msg => ⟨false, true, commentMichelson msg⟩
  | .failureNonError => ⟨false, false, ""⟩

/-- Passing a `ContractEntryScheme` where `CompileContractOptions` is expected
(the `save` branch of `WhylsonContext.compileContract`): `onPath` is the
entry's mandatory output path. -/
def cesOptions (ces : ContractEntryScheme) : CompileContractOptions :=
  ⟨ces.entrypoint, some ces.onPath, ces.flags⟩

/-- The object spread `{ ...ces, onPath: undefined }` in
`WhylsonContext.compileContract`: a fresh options record copied from the
entry with `onPath` cleared; the entry itself is not written to. -/
def cesPreviewOptions (ces : ContractEntryScheme) : CompileContractOptions :=
  ⟨ces.entrypoint, none, ces.flags⟩

/-- The invocation `WhylsonContext.compileContract` hands to
`utils.compileLigo` for a given entry and `save` flag. -/
def contractInvocation (ces : ContractEntryScheme) (save : Bool) : CompileInvocation :=
  ⟨ces.source, if save then cesOptions ces else cesPreviewOptions ces⟩

/-- Model of `WhylsonContext.compileContract`: compile to the entry's `onPath` when
`save` is true, otherwise compile in preview mode with `onPath` cleared on a
copy of the entry. -/
def compileContract (ces : ContractEntryScheme) (save : Bool) (comp : Compiler) :
    CompilationResult :=
  if save then compileLigo ces.source (cesOptions ces) comp
  else compileLigo ces.source (cesPreviewOptions ces) comp

/-- The two faces of the registry: `file` is the parse of
`.whylson/contracts.json` (`none` when missing or unparsable), `mem` is the
in-memory `_entries` mirror of `WhylsonContext`. -/
structure RegistryState where
  file : Option (List ContractEntryScheme)
  mem : List ContractEntryScheme
deriving DecidableEq, Repr

/-- Model of `utils.createEntry`: build a `ContractEntryScheme` from a ligo path, a
michelson output path and an entrypoint; `title` is the basename truncated at
its first dot, `flags` start empty. -/
def createEntry (ligoPath michelsonPath entrypoint : String) : ContractEntryScheme :=
  ⟨fileStem ligoPath, ligoPath, michelsonPath, entrypoint, []⟩

/-- Model of `WhylsonContext.getContractEntry`:
`this._entries.find((ces) => ces.source === uri.fsPath)`. -/
def getContractEntry (st : RegistryState) (docPath : String) : Option ContractEntryScheme :=
  st.mem.find? (fun ces => ces.source == docPath)

/-- Model of `WhylsonContext.createContractEntry`: prompt for an entrypoint (`ep`,
`none` when the user declines), build the entry with `utils.createEntry`,
filter same-source duplicates out of the in-memory mirror, and `io.safeWrite`
the filtered list plus the new entry to `contracts.json` (`writeOk` is the
write's success).  The in-memory mirror is not assigned; the comment in the
source defers that to the file watcher. -/
def createContractEntry (st : RegistryState) (docPath binDir : String)
    (ep : Option String) (writeOk : Bool) :
    RegistryState × Option ContractEntryScheme :=
  match ep with
  | none => (st, none)
  | some e =>
    let entry := createEntry docPath (ligoToMichelson binDir docPath) e
    let lst := st.mem.filter (fun ces => ces.source != docPath)
    if writeOk then ({ st with file := some (lst ++ [entry]) }, some entry)
    else (st, none)

/-- Model of `WhylsonContext.removeContractEntry`: filter the in-memory mirror and
`io.safeWrite` the result to `contracts.json`, returning the write's success.
The mirror itself is not assigned. -/
def removeContractEntry (st : RegistryState) (docPath : String) (writeOk : Bool) :
    RegistryState × Bool :=
  let lst := st.mem.filter (fun ces => ces.source != docPath)
  (if writeOk then { st with file := some lst } else st, writeOk)

/-- Model of `WhylsonContext.loadContractEntries`:
`this._entries = io.safeParse(await io.safeRead(uri)) || this._entries` — a
successful parse replaces the mirror, a failed read or parse keeps the
previous mirror.  The file is only read, never written. -/
def loadContractEntries (st : RegistryState) : RegistryState :=
  { st with mem := st.file.getD st.mem }

/-- The pure list transformation `createContractEntry` applies to the entry
list it writes (the Entry Store `upsert` of the specification): remove every
entry with the same `source`, then append the new entry. -/
def upsertEntry (l : List ContractEntryScheme) (e : ContractEntryScheme) :
    List ContractEntryScheme :=
  l.filter (fun ces => ces.source != e.source) ++ [e]

/-- A sequence of upserts, applied left to right. -/
def upsertAll (l : List ContractEntryScheme) (es : List ContractEntryScheme) :
    List ContractEntryScheme :=
  es.foldl upsertEntry l

/-- The `source` keys of an entry list. -/
def sources (l : List ContractEntryScheme) : List String :=
  l.map (fun ces => ces.source)

/-- Model of `WhylsonContext.firstContractCompilation`: create the entry (aborting
when the entrypoint prompt is declined or the registry write fails), compile
with `save = true`; on success keep the entry, on failure roll back with
`removeContractEntry`.  `watcherFires` records whether the `contracts.json`
watcher refreshed the mirror between the creation write and the rest of the
procedure (both interleavings occur in practice, since the watcher event is
asynchronous). -/
def firstContractCompilation (st : RegistryState) (docPath binDir : String)
    (ep : Option String) (writeOk1 writeOk2 : Bool) (watcherFires : Bool)
    (comp : Compiler) : RegistryState × Option ContractEntryScheme :=
  match createContractEntry st docPath binDir ep writeOk1 with
  | (st1, none) => (st1, none)
  | (st1, some entry) =>
    let st2 := if watcherFires then loadContractEntries st1 else st1
    if (compileContract entry true comp).ok then (st2, some entry)
    else ((removeContractEntry st2 docPath writeOk2).1, none)

/-- A JavaScript `vscode.Uri` object: `path` is its `fsPath` value, `id` is
its allocation identity.  Two distinct objects never share an `id`; JavaScript
`Map` with object keys compares by object identity (SameValueZero), i.e. by
`id`.  `WhylsonContext.ligoToMichelson` builds a fresh `Uri` object
(`pathlike.with({...})`) on every call, so repeated displays of the same
artifact path arrive with distinct `id`s. -/
structure UriObj where
  id : Nat
  path : String
deriving DecidableEq, Repr

/-- Model of `view-manager.ts` `MichelsonView`: the ligo uri it came from, the handle
to the opened preview text document (`none` models the "document attribute
might become nullable" case), and the last stored contents. -/
structure MichelsonView where
  ligoUri : UriObj
  doc : Option UriObj
  contents : String
deriving DecidableEq, Repr

/-- Model of the `ViewManager` state: the `_views : Map<vscode.Uri, MichelsonView>`
(insertion-ordered association list keyed by `Uri` object identity) plus the
`_onDidChange` notifications fired so far. -/
structure ViewManagerState where
  views : List (UriObj × MichelsonView)
  firedEvents : List UriObj
deriving DecidableEq, Repr

/-- JavaScript `Map.prototype.get` with object keys: lookup by object
identity. -/
def mapRefGet (views : List (UriObj × MichelsonView)) (u : UriObj) :
    Option MichelsonView :=
  (views.find? (fun p => p.1.id == u.id)).map Prod.snd

/-- JavaScript `Map.prototype.set` with object keys: replace the value for an
identity-equal key, otherwise append. -/
def mapRefSet (views : List (UriObj × MichelsonView)) (u : UriObj) (v : MichelsonView) :
    List (UriObj × MichelsonView) :=
  if views.any (fun p => p.1.id == u.id) then
    views.map (fun p => if p.1.id == u.id then (p.1, v) else p)
  else views ++ [(u, v)]

/-- Model of `ViewManager.createView`: open the text document for `michelsonUri`
(modelled as binding the view's `doc` to that uri object), build the new
`MichelsonView` and store it in the map under the `michelsonUri` object. -/
def createView (st : ViewManagerState) (ligoUri michelsonUri : UriObj)
    (contents : String) : ViewManagerState :=
  { st with views := mapRefSet st.views michelsonUri ⟨ligoUri, some michelsonUri, contents⟩ }

/-- Model of `ViewManager.display`: look the `michelsonUri` up in `_views`; when no
live view with an open document is found, create one; otherwise update the
stored contents (`updateContents`) and fire `_onDidChange` for
`michelsonUri`. -/
def display (st : ViewManagerState) (ligoUri michelsonUri : UriObj)
    (contents : String) : ViewManagerState :=
  match mapRefGet st.views michelsonUri with
  | some v =>
    if v.doc.isSome then
      { st with
        views := mapRefSet st.views michelsonUri { v with contents := contents },
        firedEvents := st.firedEvents ++ [michelsonUri] }
    else createView st ligoUri michelsonUri contents
  | none => createView st ligoUri michelsonUri contents

/-- Model of `ViewManager.provideTextDocumentContent`: return the stored contents for
the view mapped by `uri`, or the placeholder text.  The `uri` argument is the
object the editor host passes in, which is never the same object as the key
stored by `createView`. -/
def provideTextDocumentContent (st : ViewManagerState) (uri : UriObj) : String :=
  match mapRefGet st.views uri with
  | some v => v.contents
  | none => "# Contents of " ++ uri.path ++ " are empty"

/-- State of the single `ts-debounce` timer created in
`WhylsonContext.registerEvents` (`debounce(this.throttledOnChangeActions,
750, {isImmediate: false})`): `some (doc, deadline)` when a call is pending
with latest argument `doc`, to fire at `deadline`. -/
def DebounceState : Type := Option (String × Nat)

/-- One pass of the shared debounced function over a timeline of edit events
`(time, documentPath)` with wait `w`, final observation time `endT`.  Each
event first lets a pending timer whose deadline has passed fire (appending its
document to the output), then cancels any still-pending timer and schedules
the callback for the event's document at `time + w`; after the last event a
pending timer fires if its deadline is within `endT`.  This is the semantics
of `ts-debounce` with `isImmediate: false` — there is exactly one timer,
shared by every document. -/
def debounceProc (w endT : Nat) :
    List (Nat × String) → DebounceState → List String → List String
  | [], pending, fired =>
    fired ++
      (match pending with
       | some (d, dl) => if dl ≤ endT then [d] else []
       | none => [])
  | (t, doc) :: rest, pending, fired =>
    debounceProc w endT rest (some (doc, t + w))
      (match pending with
       | some (d, dl) => if dl ≤ t then fired ++ [d] else fired
       | none => fired)

/-- Run the shared debounced function from an idle timer: the list of
documents whose save-compile-display cycle actually runs. -/
def debounceRun (w : Nat) (events : List (Nat × String)) (endT : Nat) : List String :=
  debounceProc w endT events none []

/-- The time of the last event in a timeline whose previous event time was
`t0`. -/
def lastTime (t0 : Nat) (events : List (Nat × String)) : Nat :=
  events.foldl (fun _ e => e.1) t0

/-- Model of `WhylsonContext.throttledOnChangeActions` (the debounced callback): save
the document (`saveOk` is `doc.save()`'s result; abort on failure), look up
the entry, and when found compile in preview mode and, if `disp`, hand the
content to the view manager.  Returned are the compile invocations performed
and the content forwarded to the view manager (if any). -/
def throttledOnChangeActions (st : RegistryState) (docPath : String)
    (saveOk : Bool) (comp : Compiler) :
    List CompileInvocation × Option String :=
  if !saveOk then ([], none)
  else
    match getContractEntry st docPath with
    | none => ([], none)
    | some entry =>
      let r := compileContract entry false comp
      ([contractInvocation entry false], if r.disp then some r.content else none)

/-- The configuration and editor-state inputs consulted by the
`onDidSaveTextDocument` handler: language check, the `autoSave`
configuration, visibility of the michelson view at the guard (step 2) and at
the display decision (step 5), and the `onSaveBackgroundCompilation`
configuration. -/
structure SaveEventInput where
  isLigo : Bool
  autoSaveOn : Bool
  displayedAtGuard : Bool
  bgCompilation : Bool
  displayedAtDisplay : Bool
deriving DecidableEq, Repr

/-- What the `onDidSaveTextDocument` handler did: the compile invocations it
performed, in order, and the content it forwarded to the view manager via
`displayContract` (if any). -/
structure SaveHandlerOutput where
  invocations : List CompileInvocation
  forwarded : Option String
deriving DecidableEq, Repr

/-- The `onDidSaveTextDocument` handler registered in
`WhylsonContext.registerEvents`: return early unless the document is ligo and
not in the autosave-with-visible-view regime; then, when an entry exists and
`onSaveBackgroundCompilation` is enabled, compile in preview mode, recompile
to file exactly when the preview compilation is `ok`, and forward the preview
content to the view manager exactly when `disp` holds and the view is visible
at step 5.  The registry state is threaded through unchanged — the handler
performs no registry mutation. -/
def onDidSaveHandler (st : RegistryState) (docPath : String)
    (inp : SaveEventInput) (comp : Compiler) :
    RegistryState × SaveHandlerOutput :=
  if !inp.isLigo || (inp.autoSaveOn && inp.displayedAtGuard) then (st, ⟨[], none⟩)
  else
    match getContractEntry st docPath with
    | none => (st, ⟨[], none⟩)
    | some entry =>
      if inp.bgCompilation then
        let r := compileContract entry false comp
        let invs :=
          if r.ok then [contractInvocation entry false, contractInvocation entry true]
          else [contractInvocation entry false]
        (st, ⟨invs, if r.disp && inp.displayedAtDisplay then some r.content else none⟩)
      else (st, ⟨[], none⟩)

/-- A concrete registered entry used in concrete evaluations. -/
def sampleEntryA : ContractEntryScheme :=
  ⟨"a", "/w/a.mligo", "/r/bin/a.tz", "main", []⟩

/-- A second entry sharing `sampleEntryA`'s source (as can arise from an
externally edited or corrupted `contracts.json`). -/
def sampleEntryA2 : ContractEntryScheme :=
  ⟨"a2", "/w/a.mligo", "/r/bin/a.tz", "other", []⟩

/-- A concrete entry with a different source. -/
def sampleEntryB : ContractEntryScheme :=
  ⟨"b", "/w/b.mligo", "/r/bin/b.tz", "main", []⟩

/-- The view-manager state after displaying the same artifact path twice,
with the two distinct `Uri` objects (`id` 1 and 2) that
`WhylsonContext.ligoToMichelson` would build for the two calls. -/
def viewTwiceState : ViewManagerState :=
  display (display ⟨[], []⟩ ⟨0, "/w/a.mligo"⟩ ⟨1, "/r/bin/a.tz"⟩ "c1")
    ⟨0, "/w/a.mligo"⟩ ⟨2, "/r/bin/a.tz"⟩ "c2"

/-! ## Helper lemmas about the registry operations -/

/-- Filtering by the same source predicate twice equals filtering once. -/
theorem filter_source_idem (l : List ContractEntryScheme) (s : String) :
    (l.filter (fun c => c.source != s)).filter (fun c => c.source != s)
      = l.filter (fun c => c.source != s) := by
  rw [List.filter_filter]
  exact List.filter_congr fun x _ => by cases h : x.source != s <;> simp [h]

/-- After an upsert, the entries carrying the upserted source are exactly the
new entry. -/
theorem upsertEntry_filter_self (l : List ContractEntryScheme) (e : ContractEntryScheme) :
    (upsertEntry l e).filter (fun c => c.source == e.source) = [e] := by
  unfold upsertEntry
  rw [List.filter_append, List.filter_filter]
  have h1 : List.filter (fun a => (a.source == e.source) && (a.source != e.source)) l = [] := by
    have hc : ∀ x ∈ l, ((x.source == e.source) && (x.source != e.source))
        = (fun _ : ContractEntryScheme => false) x := by
      intro x _
      cases h : x.source == e.source <;> simp [bne, h]
    rw [List.filter_congr hc, List.filter_false]
  rw [h1]
  simp

/-- An upsert for a different source leaves the entries carrying source `s`
unchanged. -/
theorem upsertEntry_filter_other (l : List ContractEntryScheme) (e : ContractEntryScheme)
    (s : String) (h : e.source ≠ s) :
    (upsertEntry l e).filter (fun c => c.source == s)
      = l.filter (fun c => c.source == s) := by
  unfold upsertEntry
  rw [List.filter_append, List.filter_filter]
  have hbe : (e.source == s) = false := by
    cases hb : e.source == s
    · rfl
    · exact absurd (beq_iff_eq.1 hb) h
  have h2 : List.filter (fun c => c.source == s) [e] = [] := by
    simp [List.filter, hbe]
  rw [h2, List.append_nil]
  refine List.filter_congr fun x _ => ?_
  cases hb : x.source == s
  · simp [hb]
  · have hx : x.source = s := beq_iff_eq.1 hb
    simp [hb, bne, hx, h, Ne.symm h]

/-- A run of upserts none of which touches source `s` leaves the entries
carrying source `s` unchanged. -/
theorem upsertAll_filter_not_mem (es : List ContractEntryScheme) :
    ∀ (l : List ContractEntryScheme) (s : String), (∀ e' ∈ es, e'.source ≠ s) →
      (upsertAll l es).filter (fun c => c.source == s)
        = l.filter (fun c => c.source == s) := by
  induction es with
  | nil => intro l s _; rfl
  | cons e rest ih =>
    intro l s h
    have he : e.source ≠ s := h e (List.mem_cons_self _ _)
    have hrest : ∀ e' ∈ rest, e'.source ≠ s := fun e' hm => h e' (List.mem_cons_of_mem _ hm)
    calc (upsertAll l (e :: rest)).filter (fun c => c.source == s)
        = (upsertAll (upsertEntry l e) rest).filter (fun c => c.source == s) := rfl
      _ = (upsertEntry l e).filter (fun c => c.source == s) := ih _ s hrest
      _ = l.filter (fun c => c.source == s) := upsertEntry_filter_other l e s he

/-- One upsert preserves distinctness of the source keys. -/
theorem sources_upsertEntry_nodup (l : List ContractEntryScheme) (e : ContractEntryScheme)
    (h : (sources l).Nodup) : (sources (upsertEntry l e)).Nodup := by
  rw [sources, upsertEntry, List.map_append, List.nodup_append]
  refine ⟨?_, List.nodup_singleton _, ?_⟩
  · exact List.Nodup.sublist
      (List.Sublist.map _ (List.filter_sublist l)) h
  · intro a ha hb
    simp only [List.map_cons, List.map_nil, List.mem_singleton] at hb
    rw [List.mem_map] at ha
    obtain ⟨c, hc, rfl⟩ := ha
    have := (List.mem_filter.1 hc).2
    exact absurd hb (bne_iff_ne.1 this)

/-- Any run of upserts preserves distinctness of the source keys. -/
theorem sources_upsertAll_nodup (es : List ContractEntryScheme) :
    ∀ l : List ContractEntryScheme, (sources l).Nodup → (sources (upsertAll l es)).Nodup := by
  induction es with
  | nil => intro l h; exact h
  | cons e rest ih => intro l h; exact ih _ (sources_upsertEntry_nodup l e h)

/-! ## Claim C1 — rollback of a failed first registration -/

/-- Claim C1, as stated, is false at this input: the registry already holds
an entry for `/w/a.mligo` (its artifact is gone, so
`firstContractCompilation` still runs), the compilation fails, and the failed
registration leaves the registry file `some []`, different from its prior
state `some [sampleEntryA]`. -/
theorem c1_counterexample :
    (firstContractCompilation ⟨some [sampleEntryA], [sampleEntryA]⟩ "/w/a.mligo" "/r/bin"
        (some "main") true true false (fun _ => CompilerOutcome.failure "err")).1.file
      ≠ (⟨some [sampleEntryA], [sampleEntryA]⟩ : RegistryState).file := by
  decide

/-- Claim C1 (amended): when the entrypoint is supplied, both registry writes
succeed and the first compilation fails, `firstContractCompilation` returns
no entry and leaves the registry file equal to the prior in-memory mirror
with every entry for the document's source removed — irrespective of whether
the `contracts.json` watcher refreshed the mirror in between; in particular
the file holds no entry for the document's source, and when the mirror
matched the file and the file held no entry for that source, the registry
file is exactly its prior value. -/
theorem c1_rollback_amended (st : RegistryState) (docPath binDir ep : String)
    (watcherFires : Bool) (comp : Compiler)
    (hfail : (compileContract (createEntry docPath (ligoToMichelson binDir docPath) ep)
        true comp).ok = false) :
    (firstContractCompilation st docPath binDir (some ep) true true watcherFires comp).2
        = none ∧
    (firstContractCompilation st docPath binDir (some ep) true true watcherFires comp).1.file
        = some (st.mem.filter (fun c => c.source != docPath)) ∧
    (∀ c ∈ st.mem.filter (fun c => c.source != docPath), c.source ≠ docPath) ∧
    ((∀ c ∈ st.mem, c.source ≠ docPath) → st.file = some st.mem →
      (firstContractCompilation st docPath binDir (some ep) true true watcherFires comp).1.file
        = st.file) := by
  have hmemf : ∀ c ∈ st.mem.filter (fun c => c.source != docPath), c.source ≠ docPath := by
    intro c hc
    exact bne_iff_ne.1 (List.mem_filter.1 hc).2
  have hok : ¬((compileContract (createEntry docPath (ligoToMichelson binDir docPath) ep)
      true comp).ok = true) := by simp [hfail]
  have hsingle : List.filter (fun c => c.source != docPath)
      [createEntry docPath (ligoToMichelson binDir docPath) ep] = [] := by
    rw [List.filter_singleton]
    have hb : ((createEntry docPath (ligoToMichelson binDir docPath) ep).source != docPath)
        = false := bne_self_eq_false docPath
    rw [hb]
    rfl
  have hfilter : (st.mem.filter (fun c => c.source != docPath)
      ++ [createEntry docPath (ligoToMichelson binDir docPath) ep]).filter
        (fun c => c.source != docPath)
      = st.mem.filter (fun c => c.source != docPath) := by
    rw [List.filter_append, filter_source_idem, hsingle, List.append_nil]
  have hfin : firstContractCompilation st docPath binDir (some ep) true true watcherFires comp
      = (⟨some (st.mem.filter (fun c => c.source != docPath)),
           if watcherFires then
             st.mem.filter (fun c => c.source != docPath)
               ++ [createEntry docPath (ligoToMichelson binDir docPath) ep]
           else st.mem⟩, none) := by
    cases watcherFires
    · have h1 : firstContractCompilation st docPath binDir (some ep) true true false comp
          = if (compileContract (createEntry docPath (ligoToMichelson binDir docPath) ep)
                true comp).ok then
              ((⟨some (st.mem.filter (fun c => c.source != docPath)
                  ++ [createEntry docPath (ligoToMichelson binDir docPath) ep]),
                 st.mem⟩ : RegistryState),
               some (createEntry docPath (ligoToMichelson binDir docPath) ep))
            else
              ((removeContractEntry
                  ⟨some (st.mem.filter (fun c => c.source != docPath)
                    ++ [createEntry docPath (ligoToMichelson binDir docPath) ep]),
                   st.mem⟩ docPath true).1, none) := rfl
      rw [h1, if_neg hok]
      rfl
    · have h1 : firstContractCompilation st docPath binDir (some ep) true true true comp
          = if (compileContract (createEntry docPath (ligoToMichelson binDir docPath) ep)
                true comp).ok then
              ((⟨some (st.mem.filter (fun c => c.source != docPath)
                  ++ [createEntry docPath (ligoToMichelson binDir docPath) ep]),
                 st.mem.filter (fun c => c.source != docPath)
                  ++ [createEntry docPath (ligoToMichelson binDir docPath) ep]⟩ : RegistryState),
               some (createEntry docPath (ligoToMichelson binDir docPath) ep))
            else
              ((removeContractEntry
                  ⟨some (st.mem.filter (fun c => c.source != docPath)
                    ++ [createEntry docPath (ligoToMichelson binDir docPath) ep]),
                   st.mem.filter (fun c => c.source != docPath)
                    ++ [createEntry docPath (ligoToMichelson binDir docPath) ep]⟩
                  docPath true).1, none) := rfl
      rw [h1, if_neg hok]
      show ((⟨some ((st.mem.filter (fun c => c.source != docPath)
          ++ [createEntry docPath (ligoToMichelson binDir docPath) ep]).filter
            (fun c => c.source != docPath)),
          st.mem.filter (fun c => c.source != docPath)
            ++ [createEntry docPath (ligoToMichelson binDir docPath) ep]⟩ : RegistryState),
        (none : Option ContractEntryScheme)) = _
      rw [hfilter]
      rfl
  refine ⟨by rw [hfin], by rw [hfin], hmemf, ?_⟩
  intro hnone hsync
  rw [hfin]
  show some (st.mem.filter (fun c => c.source != docPath)) = st.file
  rw [hsync]
  refine congrArg some (List.filter_eq_self.2 ?_)
  intro c hc
  exact bne_iff_ne.2 (hnone c hc)

/-- Claim C1 (amended), applied at a concrete failing compilation starting
from an empty, synchronized registry: the rollback restores the exact prior
file state. -/
theorem c1_rollback_witness :
    (firstContractCompilation ⟨some [], []⟩ "/w/a.mligo" "/r/bin" (some "main") true true
        false (fun _ => CompilerOutcome.failure "err")).1.file
      = (⟨some [], []⟩ : RegistryState).file :=
  (c1_rollback_amended ⟨some [], []⟩ "/w/a.mligo" "/r/bin" "main" false
      (fun _ => CompilerOutcome.failure "err") (by decide)).2.2.2
    (by intro c hc; cases hc) rfl

/-! ## Claim C2 — uniqueness of source keys under upsert -/

/-- Claim C2, as stated, is false at this input: starting from a list that
already holds two entries for the source `/w/a.mligo` (as an externally
corrupted `contracts.json` can produce), upserting an unrelated entry leaves
two entries for that source — the registry does not contain at most one entry
per source value for every starting list. -/
theorem c2_counterexample :
    ((upsertAll [sampleEntryA, sampleEntryA2] [sampleEntryB]).filter
      (fun c => c.source == "/w/a.mligo")).length = 2 := by
  decide

/-- Claim C2 (amended): when the starting list has pairwise-distinct source
keys, any sequence of upserts preserves that uniqueness; and for every
upserted source the surviving entry is the one from the most recent upsert
for it (for any starting list).  The registry write of
`createContractEntry` is exactly one `upsertEntry` step applied to the
in-memory mirror. -/
theorem c2_upsert_uniqueness (l es₁ es₂ : List ContractEntryScheme)
    (e : ContractEntryScheme) (st : RegistryState) (docPath binDir ep : String)
    (hdup : (sources l).Nodup)
    (hlast : ∀ e' ∈ es₂, e'.source ≠ e.source) :
    (sources (upsertAll l (es₁ ++ e :: es₂))).Nodup ∧
    (upsertAll l (es₁ ++ e :: es₂)).filter (fun c => c.source == e.source) = [e] ∧
    (createContractEntry st docPath binDir (some ep) true).1.file
      = some (upsertEntry st.mem
          (createEntry docPath (ligoToMichelson binDir docPath) ep)) := by
  refine ⟨sources_upsertAll_nodup _ _ hdup, ?_, rfl⟩
  have hsplit : upsertAll l (es₁ ++ e :: es₂)
      = upsertAll (upsertEntry (upsertAll l es₁) e) es₂ := by
    rw [upsertAll, List.foldl_append]
    rfl
  rw [hsplit, upsertAll_filter_not_mem es₂ _ _ hlast, upsertEntry_filter_self]

/-- Claim C2 (amended), applied at concrete inputs: one upsert of
`sampleEntryB` into the empty registry. -/
theorem c2_upsert_witness :
    (sources (upsertAll [] ([] ++ sampleEntryB :: []))).Nodup ∧
    (upsertAll [] ([] ++ sampleEntryB :: [])).filter
      (fun c => c.source == sampleEntryB.source) = [sampleEntryB] ∧
    (createContractEntry ⟨some [], []⟩ "/w/a.mligo" "/r/bin" (some "main") true).1.file
      = some (upsertEntry (⟨some [], []⟩ : RegistryState).mem
          (createEntry "/w/a.mligo" (ligoToMichelson "/r/bin" "/w/a.mligo") "main")) :=
  c2_upsert_uniqueness [] [] [] sampleEntryB ⟨some [], []⟩ "/w/a.mligo" "/r/bin" "main"
    (by decide) (by intro e' h'; cases h')

/-! ## Claim C5 — loading a corrupt registry file -/

/-- Claim C5, as stated, is false at this input: with a non-empty in-memory
mirror and an unparsable registry file, `loadContractEntries` keeps the
previous mirror (`|| this._entries`) instead of returning an empty entry
list. -/
theorem c5_counterexample :
    (loadContractEntries ⟨none, [sampleEntryA]⟩).mem = [sampleEntryA] ∧
    (loadContractEntries ⟨none, [sampleEntryA]⟩).mem ≠ [] := by
  decide

/-- Claim C5 (amended): on a failed read or parse of the registry file,
`loadContractEntries` does not crash and does not write the file, and it
leaves the in-memory mirror at its previous value — which is the empty list
only at startup, before any successful load. -/
theorem c5_corrupt_load (st : RegistryState) (h : st.file = none) :
    (loadContractEntries st).file = st.file ∧ (loadContractEntries st).mem = st.mem := by
  unfold loadContractEntries
  rw [h]
  exact ⟨rfl, rfl⟩

/-- Claim C5 (amended), applied at the startup state: an unparsable file
with the initial empty mirror yields the empty registry. -/
theorem c5_corrupt_load_witness :
    (loadContractEntries ⟨none, []⟩).file = (⟨none, []⟩ : RegistryState).file ∧
    (loadContractEntries ⟨none, []⟩).mem = (⟨none, []⟩ : RegistryState).mem :=
  c5_corrupt_load ⟨none, []⟩ rfl

/-! ## Claim C9 — registry mutations do not touch the in-memory mirror -/

/-- Claim C9: `createContractEntry` and `removeContractEntry` write only the
registry file and leave the in-memory mirror unchanged; the mirror is
refreshed only by `loadContractEntries` (the watcher callback); hence
`getContractEntry` issued right after a successful removal still returns the
removed entry. -/
theorem c9_mirror_unchanged (st : RegistryState) (docPath binDir : String)
    (ep : Option String) (w1 w2 : Bool) (e : ContractEntryScheme)
    (l : List ContractEntryScheme)
    (hget : getContractEntry st docPath = some e) :
    (createContractEntry st docPath binDir ep w1).1.mem = st.mem ∧
    (removeContractEntry st docPath w2).1.mem = st.mem ∧
    (loadContractEntries ⟨some l, st.mem⟩).mem = l ∧
    getContractEntry (removeContractEntry st docPath true).1 docPath = some e := by
  refine ⟨?_, ?_, rfl, ?_⟩
  · cases ep with
    | none => rfl
    | some e' => cases w1 <;> rfl
  · cases w2 <;> rfl
  · exact hget

/-- Claim C9, applied at a concrete state: right after a successful removal
of `sampleEntryA`, the query for its source still returns it. -/
theorem c9_mirror_unchanged_witness :
    getContractEntry (removeContractEntry ⟨some [sampleEntryA], [sampleEntryA]⟩
        "/w/a.mligo" true).1 "/w/a.mligo" = some sampleEntryA :=
  (c9_mirror_unchanged ⟨some [sampleEntryA], [sampleEntryA]⟩ "/w/a.mligo" "/r/bin"
    none true true sampleEntryA [] (by decide)).2.2.2

/-! ## Claim C10 — `compileContract` does not mutate its entry -/

/-- Claim C10: `compileContract` builds its options on a copy of the entry —
the preview invocation carries `onPath = none` while the save invocation
still carries the entry's own `onPath` — and the registry state threaded
through the save handler (which invokes `compileContract` in both modes) is
returned unchanged, so every field of the stored entry survives and a later
lookup still returns the entry intact. -/
theorem c10_no_entry_mutation (st : RegistryState) (docPath : String)
    (inp : SaveEventInput) (comp : Compiler) (e : ContractEntryScheme)
    (hentry : getContractEntry st docPath = some e) :
    (onDidSaveHandler st docPath inp comp).1 = st ∧
    getContractEntry (onDidSaveHandler st docPath inp comp).1 docPath = some e ∧
    (contractInvocation e false).options = ⟨e.entrypoint, none, e.flags⟩ ∧
    (contractInvocation e true).options.onPath = some e.onPath := by
  have h1 : (onDidSaveHandler st docPath inp comp).1 = st := by
    unfold onDidSaveHandler
    split
    · rfl
    · split
      · rfl
      · split <;> rfl
  refine ⟨h1, ?_, rfl, rfl⟩
  rw [h1]
  exact hentry

/-- Claim C10, applied at a concrete state and save event. -/
theorem c10_no_entry_mutation_witness :
    (onDidSaveHandler ⟨some [sampleEntryA], [sampleEntryA]⟩ "/w/a.mligo"
        ⟨true, false, false, true, true⟩ (fun _ => CompilerOutcome.success "code")).1
      = (⟨some [sampleEntryA], [sampleEntryA]⟩ : RegistryState) :=
  (c10_no_entry_mutation ⟨some [sampleEntryA], [sampleEntryA]⟩ "/w/a.mligo"
    ⟨true, false, false, true, true⟩ (fun _ => CompilerOutcome.success "code")
    sampleEntryA (by decide)).1

/-! ## Claim C6 — two compilations on a steady-state save -/

/-- Claim C6, as stated, is false at this input: the document is ligo,
registered, background compilation is enabled and the document is saved — but
because `autoSave` is on and the michelson view is visible, the handler
returns at its guard and performs no compilation at all. -/
theorem c6_counterexample :
    getContractEntry ⟨some [sampleEntryA], [sampleEntryA]⟩ "/w/a.mligo" = some sampleEntryA ∧
    (onDidSaveHandler ⟨some [sampleEntryA], [sampleEntryA]⟩ "/w/a.mligo"
        ⟨true, true, true, true, true⟩
        (fun _ => CompilerOutcome.success "code")).2.invocations = [] := by
  decide

/-- Claim C6 (amended): when a registered ligo document is saved with
background compilation enabled and the save is not short-circuited by the
autosave-with-visible-view guard, the handler performs a preview-mode
compilation (an invocation with `onPath = none`); exactly when that
compilation is `ok` it performs a second invocation carrying the entry's
`onPath`; and the preview content is forwarded to the view manager exactly
when the result is displayable and the view is visible — in particular only
when the view is visible. -/
theorem c6_steady_state_save (st : RegistryState) (docPath : String)
    (inp : SaveEventInput) (comp : Compiler) (e : ContractEntryScheme)
    (hligo : inp.isLigo = true)
    (hguard : (inp.autoSaveOn && inp.displayedAtGuard) = false)
    (hentry : getContractEntry st docPath = some e)
    (hbg : inp.bgCompilation = true) :
    (contractInvocation e false).options.onPath = none ∧
    (contractInvocation e true).options.onPath = some e.onPath ∧
    (onDidSaveHandler st docPath inp comp).2.invocations
      = (if (compileContract e false comp).ok then
           [contractInvocation e false, contractInvocation e true]
         else [contractInvocation e false]) ∧
    ((onDidSaveHandler st docPath inp comp).2.forwarded ≠ none →
      inp.displayedAtDisplay = true) ∧
    (onDidSaveHandler st docPath inp comp).2.forwarded
      = (if ((compileContract e false comp).disp && inp.displayedAtDisplay) then
           some (compileContract e false comp).content
         else none) := by
  have hout : onDidSaveHandler st docPath inp comp
      = (st, ⟨if (compileContract e false comp).ok then
            [contractInvocation e false, contractInvocation e true]
          else [contractInvocation e false],
          if ((compileContract e false comp).disp && inp.displayedAtDisplay) then
            some (compileContract e false comp).content
          else none⟩) := by
    unfold onDidSaveHandler
    rw [hligo, hguard, hentry, hbg]
    rfl
  refine ⟨rfl, rfl, by rw [hout], ?_, by rw [hout]⟩
  rw [hout]
  intro hne
  cases hd : inp.displayedAtDisplay
  · exfalso
    apply hne
    show (if ((compileContract e false comp).disp && inp.displayedAtDisplay) then
        some (compileContract e false comp).content else none) = none
    rw [hd, Bool.and_false]
    rfl
  · rfl

/-- Claim C6 (amended), applied at a concrete state, save event and
successful compiler. -/
theorem c6_steady_state_save_witness :
    (onDidSaveHandler ⟨some [sampleEntryA], [sampleEntryA]⟩ "/w/a.mligo"
        ⟨true, false, false, true, true⟩
        (fun _ => CompilerOutcome.success "code")).2.invocations
      = (if (compileContract sampleEntryA false
              (fun _ => CompilerOutcome.success "code")).ok then
           [contractInvocation sampleEntryA false, contractInvocation sampleEntryA true]
         else [contractInvocation sampleEntryA false]) :=
  (c6_steady_state_save ⟨some [sampleEntryA], [sampleEntryA]⟩ "/w/a.mligo"
    ⟨true, false, false, true, true⟩ (fun _ => CompilerOutcome.success "code")
    sampleEntryA rfl rfl (by decide) rfl).2.2.1

/-! ## Claim C4 — `ViewManager.display` twice for the same artifact -/

/-- Claim C4 fails on the code: `_views` is a JavaScript `Map` keyed by
`vscode.Uri` *objects*, and every `display` call receives a freshly built
`Uri`.  Displaying the same artifact path `/r/bin/a.tz` twice (object ids 1
and 2) therefore creates two `MichelsonView` instances, never takes the
update-and-fire branch (no change notification is fired), and
`provideTextDocumentContent` — called by the editor host with its own `Uri`
object (id 3) — returns the placeholder instead of the second call's
content. -/
theorem c4_identity_keyed_map_bug :
    viewTwiceState.views.length = 2 ∧
    viewTwiceState.views.map (fun p => p.2.contents) = ["c1", "c2"] ∧
    viewTwiceState.firedEvents = [] ∧
    provideTextDocumentContent viewTwiceState ⟨3, "/r/bin/a.tz"⟩
      = "# Contents of /r/bin/a.tz are empty" ∧
    provideTextDocumentContent viewTwiceState ⟨3, "/r/bin/a.tz"⟩ ≠ "c2" := by
  decide

/-! ## Helper lemmas about the shared debounce timer -/

/-- Burst regime: while every next edit lands strictly before the pending
deadline and targets the same document, the pending cycle keeps being
rescheduled and finally fires exactly once. -/
theorem debounceProc_burst (w endT : Nat) (A : String) :
    ∀ (events : List (Nat × String)) (tp : Nat) (fired : List String),
      List.Chain (fun e1 e2 => e2.1 < e1.1 + w) (tp, A) events →
      (∀ ev ∈ events, ev.2 = A) →
      lastTime tp events + w ≤ endT →
      debounceProc w endT events (some (A, tp + w)) fired = fired ++ [A] := by
  intro events
  induction events with
  | nil =>
    intro tp fired _ _ hend
    have hend2 : tp + w ≤ endT := hend
    show fired ++ (if tp + w ≤ endT then [A] else []) = fired ++ [A]
    rw [if_pos hend2]
  | cons e rest ih =>
    intro tp fired hchain hA hend
    obtain ⟨t, d⟩ := e
    rw [List.chain_cons] at hchain
    obtain ⟨hlt, hchain2⟩ := hchain
    have hd : d = A := hA (t, d) (List.mem_cons_self _ _)
    rw [hd] at hchain2 ⊢
    have hnot : ¬(tp + w ≤ t) := Nat.not_le.2 hlt
    show debounceProc w endT rest (some (A, t + w))
        (if tp + w ≤ t then fired ++ [A] else fired) = fired ++ [A]
    rw [if_neg hnot]
    exact ih t fired hchain2 (fun ev hm => hA ev (List.mem_cons_of_mem _ hm)) hend

/-- Spaced regime: when every next edit lands at or after the pending
deadline, every scheduled cycle fires — one per event. -/
theorem debounceProc_spaced (w endT : Nat) (A : String) :
    ∀ (events : List (Nat × String)) (tp : Nat) (fired : List String),
      List.Chain (fun e1 e2 => e1.1 + w ≤ e2.1) (tp, A) events →
      (∀ ev ∈ events, ev.2 = A) →
      lastTime tp events + w ≤ endT →
      debounceProc w endT events (some (A, tp + w)) fired
        = fired ++ A :: events.map Prod.snd := by
  intro events
  induction events with
  | nil =>
    intro tp fired _ _ hend
    have hend2 : tp + w ≤ endT := hend
    show fired ++ (if tp + w ≤ endT then [A] else []) = fired ++ [A]
    rw [if_pos hend2]
  | cons e rest ih =>
    intro tp fired hchain hA hend
    obtain ⟨t, d⟩ := e
    rw [List.chain_cons] at hchain
    obtain ⟨hle, hchain2⟩ := hchain
    have hd : d = A := hA (t, d) (List.mem_cons_self _ _)
    rw [hd] at hchain2 ⊢
    show debounceProc w endT rest (some (A, t + w))
        (if tp + w ≤ t then fired ++ [A] else fired)
      = fired ++ A :: ((t, A) :: rest).map Prod.snd
    rw [if_pos hle,
      ih t (fired ++ [A]) hchain2 (fun ev hm => hA ev (List.mem_cons_of_mem _ hm)) hend]
    simp

/-! ## Claim C3 — debounce collapsing and the shared timer -/

/-- Claim C3, as stated, is false at this input: the debounced function is
shared by every document, so an edit on `/w/b.mligo` at time 1, inside the
2-tick window opened by the edit on `/w/a.mligo` at time 0, cancels and
retargets the pending cycle — `/w/a.mligo`'s cycle never runs, although the
claim says edits to a different document do not cancel it. -/
theorem c3_counterexample :
    debounceRun 2 [(0, "/w/a.mligo"), (1, "/w/b.mligo")] 10 = ["/w/b.mligo"] ∧
    "/w/a.mligo" ∉ debounceRun 2 [(0, "/w/a.mligo"), (1, "/w/b.mligo")] 10 := by
  decide

/-- Claim C3 (amended): for a stream of edits all touching one registered
document, N edits each landing inside the debounce window produce exactly one
fired cycle — hence exactly one preview compile invocation — while N edits
each spaced beyond the window produce N fired cycles; but the timer is a
single one shared by all documents, so an edit on a different document resets
and retargets it (see the counterexample). -/
theorem c3_debounce_collapsing (w endT t0 : Nat) (A : String)
    (events : List (Nat × String)) (st : RegistryState) (comp : Compiler)
    (e : ContractEntryScheme)
    (hA : ∀ ev ∈ events, ev.2 = A)
    (hend : lastTime t0 events + w ≤ endT)
    (hentry : getContractEntry st A = some e) :
    (List.Chain (fun e1 e2 => e2.1 < e1.1 + w) (t0, A) events →
      debounceRun w ((t0, A) :: events) endT = [A] ∧
      (debounceRun w ((t0, A) :: events) endT).flatMap
        (fun d => (throttledOnChangeActions st d true comp).1)
        = [contractInvocation e false]) ∧
    (List.Chain (fun e1 e2 => e1.1 + w ≤ e2.1) (t0, A) events →
      debounceRun w ((t0, A) :: events) endT = A :: events.map Prod.snd ∧
      (debounceRun w ((t0, A) :: events) endT).length = events.length + 1) := by
  have hstep : debounceRun w ((t0, A) :: events) endT
      = debounceProc w endT events (some (A, t0 + w)) [] := rfl
  constructor
  · intro hchain
    have h1 : debounceRun w ((t0, A) :: events) endT = [A] := by
      rw [hstep]
      exact debounceProc_burst w endT A events t0 [] hchain hA hend
    refine ⟨h1, ?_⟩
    rw [h1]
    show (throttledOnChangeActions st A true comp).1 ++ [] = [contractInvocation e false]
    rw [List.append_nil]
    unfold throttledOnChangeActions
    rw [hentry]
    rfl
  · intro hchain
    have h1 : debounceRun w ((t0, A) :: events) endT = A :: events.map Prod.snd := by
      rw [hstep]
      rw [debounceProc_spaced w endT A events t0 [] hchain hA hend]
      rfl
    refine ⟨h1, ?_⟩
    rw [h1]
    simp

/-- Claim C3 (amended), applied at a concrete burst: two edits on the
registered document `/w/a.mligo` one tick apart, inside a 2-tick window,
produce exactly one fired cycle. -/
theorem c3_debounce_collapsing_witness :
    debounceRun 2 [(0, "/w/a.mligo"), (1, "/w/a.mligo")] 10 = ["/w/a.mligo"] :=
  ((c3_debounce_collapsing 2 10 0 "/w/a.mligo" [(1, "/w/a.mligo")]
      ⟨some [sampleEntryA], [sampleEntryA]⟩ (fun _ => CompilerOutcome.success "code")
      sampleEntryA (by decide) (by decide) (by decide)).1
    (List.chain_cons.2 ⟨by decide, List.Chain.nil⟩)).1

/-! ## Helper lemmas about strings -/

/-- Appending a common string on the left is cancellable. -/
theorem string_append_left_cancel {u s t : String} (h : u ++ s = u ++ t) : s = t := by
  have h2 := congrArg String.data h
  rw [String.data_append, String.data_append] at h2
  exact String.ext (List.append_cancel_left h2)

/-- Appending a common string on the right is cancellable. -/
theorem string_append_right_cancel {s t u : String} (h : s ++ u = t ++ u) : s = t := by
  have h2 := congrArg String.data h
  rw [String.data_append, String.data_append] at h2
  exact String.ext (List.append_cancel_right h2)

/-! ## Claim C7 — the path mapper -/

/-- Claim C7, as stated, is false at this input: the basename is truncated at
its *first* dot (`split(".")[0]`), not merely stripped of its extension, so
`/w/x.y.mligo` — whose filename with the extension stripped is `x.y` — maps
to `/r/bin/x.tz`, not `/r/bin/x.y.tz`; consequently `/w/x.y.mligo` and
`/w/x.z.mligo` collide on the same artifact path although their
extension-stripped stems `x.y` and `x.z` differ. -/
theorem c7_counterexample :
    ligoToMichelson "/r/bin" "/w/x.y.mligo" = ligoToMichelson "/r/bin" "/w/x.z.mligo" ∧
    ligoToMichelson "/r/bin" "/w/x.y.mligo" = "/r/bin/x.tz" ∧
    ligoToMichelson "/r/bin" "/w/x.y.mligo" ≠ "/r/bin/x.y.tz" ∧
    ("x.y" : String) ≠ "x.z" := by
  decide

/-- Claim C7 (amended): `ligoToMichelson` is pure and deterministic — equal
arguments give equal results — its output is the basename truncated at its
first dot with `".tz"` appended, relocated into the fixed artifact directory,
and two source paths map to the same artifact path exactly when they share
the same before-the-first-dot stem of their basenames. -/
theorem c7_path_mapper (binDir a b : String) :
    ligoToMichelson binDir a = ligoToMichelson binDir a ∧
    ligoToMichelson binDir a = binDir ++ "/" ++ (fileStem a ++ ".tz") ∧
    (ligoToMichelson binDir a = ligoToMichelson binDir b ↔ fileStem a = fileStem b) := by
  refine ⟨rfl, rfl, ⟨?_, ?_⟩⟩
  · intro h
    exact string_append_right_cancel (string_append_left_cancel h)
  · intro h
    unfold ligoToMichelson
    rw [h]

/-! ## Helper lemmas about `jsSplitCh` and `commentMichelson` -/

/-- No segment returned by `jsSplitCh` contains the separator. -/
theorem jsSplitCh_no_sep_mem (sep : Char) :
    ∀ (cs : List Char), ∀ l ∈ jsSplitCh sep cs, sep ∉ l := by
  intro cs
  induction cs with
  | nil =>
    intro l hl
    rcases List.mem_singleton.1 hl with rfl
    simp
  | cons c cs ih =>
    intro l hl
    unfold jsSplitCh at hl
    by_cases hc : c = sep
    · rw [if_pos hc] at hl
      rcases List.mem_cons.1 hl with h | h
      · subst h; simp
      · exact ih l h
    · rw [if_neg hc] at hl
      cases hsplit : jsSplitCh sep cs with
      | nil =>
        rw [hsplit] at hl
        rcases List.mem_singleton.1 hl with rfl
        intro hm
        rcases List.mem_singleton.1 hm with rfl
        exact hc rfl
      | cons l0 ls =>
        rw [hsplit] at hl
        rcases List.mem_cons.1 hl with h | h
        · subst h
          intro hm
          rcases List.mem_cons.1 hm with h2 | h2
          · exact hc h2.symm
          · exact ih l0 (by rw [hsplit]; exact List.mem_cons_self _ _) h2
        · exact ih l (by rw [hsplit]; exact List.mem_cons_of_mem _ h)

/-- Splitting a list that starts with a separator-free segment followed by
the separator peels that segment off. -/
theorem jsSplitCh_append_sep (sep : Char) :
    ∀ (a b : List Char), sep ∉ a →
      jsSplitCh sep (a ++ sep :: b) = a :: jsSplitCh sep b := by
  intro a
  induction a with
  | nil =>
    intro b _
    show jsSplitCh sep (sep :: b) = [] :: jsSplitCh sep b
    conv_lhs => rw [jsSplitCh]
    rw [if_pos rfl]
  | cons c a ih =>
    intro b hsep
    have hc : ¬(c = sep) := fun h => hsep (by rw [h]; exact List.mem_cons_self _ _)
    show jsSplitCh sep (c :: (a ++ sep :: b)) = (c :: a) :: jsSplitCh sep b
    conv_lhs => rw [jsSplitCh]
    rw [if_neg hc, ih b (fun hm => hsep (List.mem_cons_of_mem _ hm))]

/-- The character data of the comment-accumulating fold. -/
theorem foldl_comment_data :
    ∀ (lines : List String) (r : String),
      (lines.foldl (fun result line => result ++ "# " ++ line ++ "\n") r).data
        = r.data ++ (lines.map (fun l => '#' :: ' ' :: (l.data ++ ['\n']))).flatten := by
  intro lines
  induction lines with
  | nil => intro r; simp
  | cons l ls ih =>
    intro r
    show (ls.foldl (fun result line => result ++ "# " ++ line ++ "\n")
        (r ++ "# " ++ l ++ "\n")).data = _
    rw [ih (r ++ "# " ++ l ++ "\n")]
    have hdata : (r ++ "# " ++ l ++ "\n").data
        = r.data ++ ('#' :: ' ' :: (l.data ++ ['\n'])) := by
      rw [String.data_append, String.data_append, String.data_append]
      show r.data ++ ['#', ' '] ++ l.data ++ ['\n'] = _
      simp
    rw [hdata]
    simp

/-- Splitting the concatenation of newline-terminated comment lines at
newlines recovers the comment lines, plus the empty remnant after the final
newline. -/
theorem jsSplitCh_comment_flatten :
    ∀ (ls : List (List Char)), (∀ l ∈ ls, '\n' ∉ l) →
      jsSplitCh '\n' ((ls.map (fun l => '#' :: ' ' :: (l ++ ['\n']))).flatten)
        = ls.map (fun l => '#' :: ' ' :: l) ++ [[]] := by
  intro ls
  induction ls with
  | nil => intro _; rfl
  | cons l ls ih =>
    intro h
    have hl : '\n' ∉ ('#' :: ' ' :: l : List Char) := by
      intro hm
      rcases List.mem_cons.1 hm with h1 | h1
      · exact absurd h1 (by decide)
      · rcases List.mem_cons.1 h1 with h2 | h2
        · exact absurd h2 (by decide)
        · exact h l (List.mem_cons_self _ _) h2
    have hflat : ((l :: ls).map (fun l => '#' :: ' ' :: (l ++ ['\n']))).flatten
        = ('#' :: ' ' :: l) ++ '\n'
            :: (ls.map (fun l => '#' :: ' ' :: (l ++ ['\n']))).flatten := by
      simp
    rw [hflat, jsSplitCh_append_sep '\n' _ _ hl,
      ih (fun l2 hm => h l2 (List.mem_cons_of_mem _ hm))]
    rfl

/-- Lines of the comment-wrapped text: every line of the original, with
`"# "` in front — plus the empty remnant after the final newline. -/
theorem commentMichelson_lines (c : String) :
    jsSplit '\n' (commentMichelson c)
      = (jsSplit '\n' c).map (fun l => "# " ++ l) ++ [""] := by
  have hdata : (commentMichelson c).data
      = ((jsSplitCh '\n' c.data).map (fun l => '#' :: ' ' :: (l ++ ['\n']))).flatten := by
    have h1 : (commentMichelson c).data
        = "".data
          ++ ((jsSplit '\n' c).map (fun l => '#' :: ' ' :: (l.data ++ ['\n']))).flatten :=
      foldl_comment_data (jsSplit '\n' c) ""
    rw [h1]
    show ((jsSplit '\n' c).map (fun l => '#' :: ' ' :: (l.data ++ ['\n']))).flatten
      = ((jsSplitCh '\n' c.data).map (fun l => '#' :: ' ' :: (l ++ ['\n']))).flatten
    rw [jsSplit, List.map_map]
    rfl
  show (jsSplitCh '\n' (commentMichelson c).data).map (fun l => String.mk l) = _
  rw [hdata,
    jsSplitCh_comment_flatten (jsSplitCh '\n' c.data) (jsSplitCh_no_sep_mem '\n' c.data)]
  rw [List.map_append, jsSplit, List.map_map, List.map_map]
  rfl

/-! ## Claim C8 — diagnostics are comment-wrapped -/

/-- Claim C8: when the compiler throws an `Error` carrying a diagnostic
message, `compileLigo` returns a failed, displayable result whose content is
the comment-wrapped diagnostic, and every line of that content — apart from
the empty remnant after the final newline — begins with `"# "`. -/
theorem c8_comment_wrapping (source : String) (cco : CompileContractOptions)
    (comp : Compiler) (msg : String)
    (h : comp ⟨source, cco⟩ = CompilerOutcome.failure msg) :
    compileLigo source cco comp = ⟨false, true, commentMichelson msg⟩ ∧
    ∀ l ∈ jsSplit '\n' (compileLigo source cco comp).content,
      l = "" ∨ ∃ r, l = "# " ++ r := by
  have h1 : compileLigo source cco comp = ⟨false, true, commentMichelson msg⟩ := by
    unfold compileLigo
    rw [h]
  refine ⟨h1, ?_⟩
  rw [h1]
  intro l hl
  rw [commentMichelson_lines] at hl
  rcases List.mem_append.1 hl with hm | hm
  · right
    rw [List.mem_map] at hm
    obtain ⟨l0, _, rfl⟩ := hm
    exact ⟨l0, rfl⟩
  · left
    exact List.mem_singleton.1 hm

/-- Claim C8, applied at a concrete failing compilation with the diagnostic
`"a\nb"`: the result is its comment-wrapping, and the concrete line `"# a"`
of the returned content begins with `"# "`. -/
theorem c8_comment_wrapping_witness :
    compileLigo "/w/a.mligo" ⟨"main", none, []⟩
        (fun _ => CompilerOutcome.failure "a\nb")
      = ⟨false, true, commentMichelson "a\nb"⟩ ∧
    (("# a" : String) = "" ∨ ∃ r, ("# a" : String) = "# " ++ r) :=
  ⟨(c8_comment_wrapping "/w/a.mligo" ⟨"main", none, []⟩
      (fun _ => CompilerOutcome.failure "a\nb") "a\nb" rfl).1,
   (c8_comment_wrapping "/w/a.mligo" ⟨"main", none, []⟩
      (fun _ => CompilerOutcome.failure "a\nb") "a\nb" rfl).2 "# a" (by decide)⟩

end Whylson
